import Mathlib

/-!
Shallow embedding of `src/Coins/data_sheet.py` (package `AABT-Coins`),
a SQLite-backed store for per-user coin balances, per-group check-in
permission flags, and per-user per-day payment volumes.

Modelling decisions:
* A SQLite table is a list of rows in insertion order; `query(...).first()`
  is `List.find?`, `query(...).update({...})` maps the update over every
  matching row, `s.add` appends a row.
* Python floats are modelled as exact rationals `ℚ`; Python's
  `round(x, 3)` (banker's rounding, half to even) is `round3` built on
  `pyround`, a half-to-even rounding `ℚ → ℤ`.
* `time.time()` and `get_today()` become explicit `now : ℤ` / `today : String`
  parameters; `random.random()` becomes an explicit stream `rand : ℕ → ℚ`
  of draws, one per row scanned, each constrained to `[0, 1)` in theorems.
* `.first().attr` on an empty query raises `AttributeError` in Python;
  operations that can do that return `Option` (`none` = crash).
* The `PayData.id` primary key is a surrogate auto-increment; it is
  modelled by a `nextPayId` counter in the database state.
-/

/-- Python `round(x * 10^3) `-style half-to-even rounding of a rational to an
integer, as Python's builtin `round` does on the exact value. -/
def pyround (x : ℚ) : ℤ :=
  if x - ⌊x⌋ < 1/2 then ⌊x⌋
  else if 1/2 < x - ⌊x⌋ then ⌊x⌋ + 1
  else if Even ⌊x⌋ then ⌊x⌋ else ⌊x⌋ + 1

/-- Python `round(x, 3)`: round to 3 decimal places. -/
def round3 (x : ℚ) : ℚ := (pyround (1000 * x) : ℚ) / 1000

/-- Python `int(x)`: truncation toward zero. -/
def truncQ (x : ℚ) : ℤ := if 0 ≤ x then ⌊x⌋ else ⌈x⌉

/-- Row of table `userdata`: `userid` (PK), `Coins`, `last_login`. -/
structure UserRow where
  userid : ℤ
  Coins : ℚ
  last_login : ℤ
deriving Repr, DecidableEq

/-- Row of table `groupdata`: `groupid` (PK), `allow`. -/
structure GroupRow where
  groupid : ℤ
  allow : Bool
deriving Repr, DecidableEq

/-- Row of table `pay_data`: surrogate `id` (PK), `userid`, `date`, `volume`. -/
structure PayRow where
  id : ℕ
  userid : ℤ
  date : String
  volume : ℤ
deriving Repr, DecidableEq

/-- The whole SQLite database `Coin.db`. -/
structure DB where
  users : List UserRow
  groups : List GroupRow
  pays : List PayRow
  nextPayId : ℕ
deriving Repr, DecidableEq

/-- `is_in_table(userid)`: whether a `userdata` row with this id exists. -/
def is_in_table (userid : ℤ) (db : DB) : Bool :=
  (db.users.find? fun r => r.userid == userid).isSome

/-- `add_new_user(userid)`: insert a new user with `Coins = 10.0` and
`last_login = int(time.time())`. -/
def add_new_user (userid : ℤ) (now : ℤ) (db : DB) : DB :=
  { db with users := db.users ++ [⟨userid, 10, now⟩] }

/-- `update_activity(userid)`: create the user if absent (at time `now1`),
then set `last_login` of every matching row to `now2` (the second
`time.time()` call). -/
def update_activity (userid : ℤ) (now1 now2 : ℤ) (db : DB) : DB :=
  let db1 := if is_in_table userid db then db else add_new_user userid now1 db
  { db1 with
    users := db1.users.map fun r =>
      if r.userid == userid then { r with last_login := now2 } else r }

/-- `get_Coins(userid)`: `first().Coins`; `none` models the
`AttributeError` raised when no row matches. -/
def get_Coins (userid : ℤ) (db : DB) : Option ℚ :=
  (db.users.find? fun r => r.userid == userid).map (·.Coins)

/-- `set_Coins(userid, length)`: read the first matching row's `Coins`,
then update every matching row to `round(current + length, 3)` and
`last_login = int(time.time())`. `none` models the `AttributeError`
when the user is absent. -/
def set_Coins (userid : ℤ) (length : ℚ) (now : ℤ) (db : DB) : Option DB :=
  (db.users.find? fun r => r.userid == userid).map fun cur =>
    { db with
      users := db.users.map fun r =>
        if r.userid == userid then
          { r with Coins := round3 (cur.Coins + length), last_login := now }
        else r }

/-- `check_group_allow(groupid)`: the row's `allow` flag, or `False` when no
row exists. -/
def check_group_allow (groupid : ℤ) (db : DB) : Bool :=
  match db.groups.find? fun r => r.groupid == groupid with
  | some r => r.allow
  | none => false

/-- `set_group_allow(groupid, allow)`: insert `⟨groupid, False⟩` if absent,
then update every matching row's `allow` to the requested value. -/
def set_group_allow (groupid : ℤ) (allow : Bool) (db : DB) : DB :=
  let gs :=
    if (db.groups.find? fun r => r.groupid == groupid).isSome then db.groups
    else db.groups ++ [⟨groupid, false⟩]
  { db with
    groups := gs.map fun r =>
      if r.groupid == groupid then { r with allow := allow } else r }

/-- `insert_pay(userid, volume)`: truncate `volume` to an integer, then
(a) if the user has no pay record at all, insert a row for `today`;
(b) else if a row for (`userid`, `today`) exists, set every such row's
volume to `round(current + volume, 3)` — both are integers, so Python's
`round(·, 3)` is the identity and the stored value is `current + volume`;
(c) else insert a row for `today`. -/
def insert_pay (userid : ℤ) (volume : ℚ) (today : String) (db : DB) : DB :=
  let v : ℤ := truncQ volume
  if (db.pays.find? fun p => p.userid == userid).isNone then
    { db with pays := db.pays ++ [⟨db.nextPayId, userid, today, v⟩],
              nextPayId := db.nextPayId + 1 }
  else
    match db.pays.find? fun p => p.userid == userid && p.date == today with
    | some cur =>
        { db with
          pays := db.pays.map fun p =>
            if p.userid == userid && p.date == today then
              { p with volume := cur.volume + v }
            else p }
    | none =>
        { db with pays := db.pays ++ [⟨db.nextPayId, userid, today, v⟩],
                  nextPayId := db.nextPayId + 1 }

/-- `get_pay_data(userid)`: all (`date`, `volume`) pairs of the user, in
storage order. -/
def get_pay_data (userid : ℤ) (db : DB) : List (String × ℤ) :=
  (db.pays.filter fun p => p.userid == userid).map fun p => (p.date, p.volume)

/-- `get_today_pay_data(userid)`: the volume of the first row matching
(`userid`, `today`), else `0.0`. -/
def get_today_pay_data (userid : ℤ) (today : String) (db : DB) : ℚ :=
  match db.pays.find? fun p => p.userid == userid && p.date == today with
  | some p => (p.volume : ℚ)
  | none => 0

/-- One step of the punishment sweep on the row at scan position `i`:
if `time.time() - last_login > 86400` and `Coins > 1`, set
`Coins := round(Coins - random.random(), 3)`. -/
def punishStep (now : ℤ) (rand : ℕ → ℚ) (i : ℕ) (u : UserRow) : UserRow :=
  if now - u.last_login > 86400 ∧ u.Coins > 1 then
    { u with Coins := round3 (u.Coins - rand i) }
  else u

/-- The sweep over a row list, threading the scan position. -/
def punishUsers (now : ℤ) (rand : ℕ → ℚ) : ℕ → List UserRow → List UserRow
  | _, [] => []
  | i, u :: rest => punishStep now rand i u :: punishUsers now rand (i + 1) rest

/-- `punish_all_inactive_users()`: iterate every user row, punishing the
inactive rich ones, then commit once. -/
def punish_all_inactive_users (now : ℤ) (rand : ℕ → ℚ) (db : DB) : DB :=
  { db with users := punishUsers now rand 0 db.users }

/-- `get_sorted()`: every user as (`userid`, `Coins`), ordered by `Coins`
descending (`ORDER BY Coins DESC`; order among ties is not specified by
SQLite, `mergeSort` is one refinement of it). -/
def get_sorted (db : DB) : List (ℤ × ℚ) :=
  (db.users.mergeSort fun a b => decide (b.Coins ≤ a.Coins)).map
    fun u => (u.userid, u.Coins)

/-! ### Rounding lemmas -/

theorem le_pyround (x : ℚ) : x - 1/2 ≤ (pyround x : ℚ) := by
  have hfl : (⌊x⌋ : ℚ) ≤ x := Int.floor_le x
  have hfl2 : x < ⌊x⌋ + 1 := Int.lt_floor_add_one x
  unfold pyround
  split_ifs with h1 h2 h3
  · linarith
  · push_cast
    linarith
  · rw [not_lt] at h2
    linarith
  · rw [not_lt] at h2
    push_cast
    linarith

theorem pyround_le (x : ℚ) : (pyround x : ℚ) ≤ x + 1/2 := by
  have hfl : (⌊x⌋ : ℚ) ≤ x := Int.floor_le x
  have hfl2 : x < ⌊x⌋ + 1 := Int.lt_floor_add_one x
  unfold pyround
  split_ifs with h1 h2 h3
  · linarith
  · push_cast
    linarith
  · rw [not_lt] at h1
    linarith
  · rw [not_lt] at h1 h2
    push_cast
    linarith

theorem pyround_int_add_low (n : ℤ) (a : ℚ) (h0 : 0 ≤ a) (h1 : a < 1/2) :
    pyround ((n : ℚ) + a) = n := by
  have hfa : ⌊a⌋ = 0 := Int.floor_eq_zero_iff.mpr ⟨h0, by linarith⟩
  have hf : ⌊(n : ℚ) + a⌋ = n := by rw [Int.floor_int_add, hfa, add_zero]
  unfold pyround
  rw [hf]
  simp only [add_sub_cancel_left]
  exact if_pos h1

theorem pyround_int_add_high (n : ℤ) (a : ℚ) (h0 : 1/2 < a) (h1 : a < 1) :
    pyround ((n : ℚ) + a) = n + 1 := by
  have hfa : ⌊a⌋ = 0 := Int.floor_eq_zero_iff.mpr ⟨by linarith, h1⟩
  have hf : ⌊(n : ℚ) + a⌋ = n := by rw [Int.floor_int_add, hfa, add_zero]
  unfold pyround
  rw [hf]
  simp only [add_sub_cancel_left]
  rw [if_neg (by linarith), if_pos h0]

theorem pyround_nonneg (x : ℚ) (hx : 0 < x) : 0 ≤ pyround x := by
  have h1 := le_pyround x
  by_contra hc
  push_neg at hc
  have h2 : pyround x ≤ -1 := by omega
  have h3 : (pyround x : ℚ) ≤ -1 := by exact_mod_cast h2
  linarith

theorem round3_nonneg (x : ℚ) (hx : 0 < x) : 0 ≤ round3 x := by
  unfold round3
  have h := pyround_nonneg (1000 * x) (by linarith)
  have h2 : (0 : ℚ) ≤ (pyround (1000 * x) : ℚ) := by exact_mod_cast h
  linarith

/-! ### List helper lemmas -/

theorem find?_map_pred {α : Type} (pred : α → Bool) (f : α → α)
    (hp : ∀ r, pred (f r) = pred r) (l : List α) :
    (l.map f).find? pred = (l.find? pred).map f := by
  induction l with
  | nil => rfl
  | cons a l ih =>
    simp only [List.map_cons]
    by_cases h : pred a = true
    · rw [List.find?_cons_of_pos _ ((hp a).trans h), List.find?_cons_of_pos _ h]
      rfl
    · rw [List.find?_cons_of_neg _ (by rw [hp a]; exact h),
        List.find?_cons_of_neg _ h, ih]

theorem find?_map_id_of_pred {α : Type} (pred : α → Bool) (f : α → α)
    (hp : ∀ r, pred (f r) = pred r) (hid : ∀ r, pred r = true → f r = r)
    (l : List α) :
    (l.map f).find? pred = l.find? pred := by
  rw [find?_map_pred pred f hp]
  cases h : l.find? pred with
  | none => rfl
  | some a => simp [hid a (List.find?_some h)]

theorem find?_append_right {α : Type} (pred : α → Bool) (l : List α) (x : α)
    (hl : ∀ r ∈ l, ¬ pred r) (hx : pred x = true) :
    (l ++ [x]).find? pred = some x := by
  rw [List.find?_append, List.find?_eq_none.mpr hl]
  simp [hx]

theorem find?_append_none {α : Type} (pred : α → Bool) (l : List α) (x : α)
    (hx : pred x = false) :
    (l ++ [x]).find? pred = l.find? pred := by
  rw [List.find?_append]
  cases h : l.find? pred <;> simp [hx]

theorem punishUsers_getElem? (now : ℤ) (rand : ℕ → ℚ) :
    ∀ (l : List UserRow) (k i : ℕ),
      (punishUsers now rand k l)[i]? = l[i]?.map (punishStep now rand (k + i)) := by
  intro l
  induction l with
  | nil => intro k i; simp [punishUsers]
  | cons u rest ih =>
    intro k i
    cases i with
    | zero => simp [punishUsers]
    | succ j =>
      simp only [punishUsers, List.getElem?_cons_succ, ih (k + 1) j]
      have : k + 1 + j = k + (j + 1) := by omega
      rw [this]

theorem punishUsers_length (now : ℤ) (rand : ℕ → ℚ) :
    ∀ (l : List UserRow) (k : ℕ), (punishUsers now rand k l).length = l.length := by
  intro l
  induction l with
  | nil => intro k; rfl
  | cons u rest ih => intro k; simp [punishUsers, ih (k + 1)]

/-- The PaymentRecord key invariant: at most one row per (`userid`, `date`). -/
def payKeyUnique (l : List PayRow) : Prop :=
  l.Pairwise fun p q => ¬(p.userid = q.userid ∧ p.date = q.date)

/-! ### Claim theorems -/

/-- C6: `get_Coins` on a userid with no User row hits a null dereference
(`None.Coins`, modelled by `none`) instead of returning a value, while
`get_today_pay_data` for a user with no record for today returns `0.0`
rather than failing. -/
theorem get_Coins_crashes_but_today_pay_defaults (db : DB) (u : ℤ) (d : String)
    (h1 : ∀ r ∈ db.users, r.userid ≠ u)
    (h2 : ∀ p ∈ db.pays, ¬(p.userid = u ∧ p.date = d)) :
    get_Coins u db = none ∧ get_today_pay_data u d db = 0 := by
  have hu : db.users.find? (fun r => r.userid == u) = none :=
    List.find?_eq_none.mpr fun r hr => by simpa using h1 r hr
  have hp : db.pays.find? (fun p => p.userid == u && p.date == d) = none :=
    List.find?_eq_none.mpr fun p hp => by simpa using h2 p hp
  constructor
  · unfold get_Coins
    rw [hu]
    rfl
  · unfold get_today_pay_data
    rw [hp]

/-- C3: for a userid never seen before, `is_in_table` is false; after
`add_new_user` (at time `now`) or `update_activity` (whose two
`time.time()` calls are `now1`, `now2`), `is_in_table` is true, `get_Coins`
returns `10.0`, and the user's row carries the current time as
`last_login`. -/
theorem new_user_lifecycle (db : DB) (u now now1 now2 : ℤ)
    (h : ∀ r ∈ db.users, r.userid ≠ u) :
    is_in_table u db = false
    ∧ is_in_table u (add_new_user u now db) = true
    ∧ (add_new_user u now db).users.find? (fun r => r.userid == u) =
        some ⟨u, 10, now⟩
    ∧ get_Coins u (add_new_user u now db) = some 10
    ∧ is_in_table u (update_activity u now1 now2 db) = true
    ∧ (update_activity u now1 now2 db).users.find? (fun r => r.userid == u) =
        some ⟨u, 10, now2⟩
    ∧ get_Coins u (update_activity u now1 now2 db) = some 10 := by
  have hnone : db.users.find? (fun r => r.userid == u) = none :=
    List.find?_eq_none.mpr fun r hr => by simpa using h r hr
  have hin : is_in_table u db = false := by
    unfold is_in_table
    rw [hnone]
    rfl
  have hadd : ∀ t : ℤ,
      (add_new_user u t db).users.find? (fun r => r.userid == u) =
        some ⟨u, 10, t⟩ := by
    intro t
    unfold add_new_user
    exact find?_append_right _ _ _ (fun r hr => by simpa using h r hr) (by simp)
  have hupd : (update_activity u now1 now2 db).users.find?
      (fun r => r.userid == u) = some ⟨u, 10, now2⟩ := by
    unfold update_activity
    rw [if_neg (by simp [hin])]
    rw [find?_map_pred _ _ (fun r => by by_cases hr : (r.userid == u) = true <;> simp [hr])]
    rw [hadd now1]
    simp
  refine ⟨hin, ?_, hadd now, ?_, ?_, hupd, ?_⟩
  · unfold is_in_table
    rw [hadd now]
    rfl
  · unfold get_Coins
    rw [hadd now]
    rfl
  · unfold is_in_table
    rw [hupd]
    rfl
  · unfold get_Coins
    rw [hupd]
    rfl

/-- C5: after `set_group_allow g a`, `check_group_allow g` returns `a` for
every database, whether or not the group row existed before (the
insert-with-false then update two-step nets out to the requested value);
a never-configured group reads as `false` rather than raising. -/
theorem group_allow_roundtrip (db : DB) (g : ℤ) (a : Bool) :
    check_group_allow g (set_group_allow g a db) = a
    ∧ ((∀ r ∈ db.groups, r.groupid ≠ g) → check_group_allow g db = false) := by
  have hp : ∀ r : GroupRow,
      (((if r.groupid == g then { r with allow := a } else r) : GroupRow).groupid == g)
        = (r.groupid == g) := by
    intro r
    by_cases hr : (r.groupid == g) = true <;> simp [hr]
  constructor
  · unfold set_group_allow check_group_allow
    cases hfind : db.groups.find? (fun r => r.groupid == g) with
    | some r0 =>
      have h1 := List.find?_some hfind
      have h2 : r0.groupid = g := by simpa using h1
      simp only [Option.isSome_some, eq_self_iff_true, if_true]
      rw [find?_map_pred _ _ hp, hfind]
      simp [h2]
    | none =>
      simp only [Option.isSome_none, Bool.false_eq_true, if_false]
      rw [find?_map_pred _ _ hp]
      rw [find?_append_right _ _ _ (List.find?_eq_none.mp hfind) (by simp)]
      simp
  · intro h
    unfold check_group_allow
    rw [List.find?_eq_none.mpr fun r hr => by simpa using h r hr]

/-- C8: `get_sorted` returns every user as a (`userid`, `Coins`) entry,
with the `Coins` components in non-increasing order. -/
theorem get_sorted_desc_and_complete (db : DB) :
    (get_sorted db).Pairwise (fun x y => y.2 ≤ x.2)
    ∧ (get_sorted db).Perm (db.users.map fun r => (r.userid, r.Coins)) := by
  constructor
  · unfold get_sorted
    rw [List.pairwise_map]
    have hs := @List.sorted_mergeSort UserRow
      (fun x y => decide (y.Coins ≤ x.Coins))
      (fun x y z hxy hyz => by
        simp only [decide_eq_true_eq] at *
        exact le_trans hyz hxy)
      (fun x y => by
        simp only [Bool.or_eq_true, decide_eq_true_eq]
        exact le_total y.Coins x.Coins)
      db.users
    exact hs.imp fun hab => by simpa using hab
  · unfold get_sorted
    exact (List.mergeSort_perm db.users _).map _

/-! ### Specialized rounding computations -/

theorem round3_add_53333 (m : ℤ) :
    round3 ((m : ℚ)/1000 + 53333/10000) = ((m + 5333 : ℤ) : ℚ)/1000 := by
  unfold round3
  have e1 : (1000 : ℚ) * ((m : ℚ)/1000 + 53333/10000) =
      ((m + 5333 : ℤ) : ℚ) + 3/10 := by
    push_cast
    ring
  rw [e1, pyround_int_add_low (m + 5333) (3/10) (by norm_num) (by norm_num)]

theorem round3_sub_53333 (m : ℤ) :
    round3 (((m + 5333 : ℤ) : ℚ)/1000 - 53333/10000) = (m : ℚ)/1000 := by
  unfold round3
  have e1 : (1000 : ℚ) * (((m + 5333 : ℤ) : ℚ)/1000 - 53333/10000) =
      ((m - 1 : ℤ) : ℚ) + 7/10 := by
    push_cast
    ring
  rw [e1, pyround_int_add_high (m - 1) (7/10) (by norm_num) (by norm_num)]
  push_cast
  ring

theorem round3_five_sub_bounds (r : ℚ) (h0 : 0 ≤ r) (h1 : r < 1) :
    0 ≤ 5 - round3 (5 - r) ∧ 5 - round3 (5 - r) ≤ 1 := by
  unfold round3
  have hle := pyround_le (1000 * (5 - r))
  have hge := le_pyround (1000 * (5 - r))
  constructor
  · have hz1 : pyround (1000 * (5 - r)) ≤ 5000 := by
      by_contra hc
      push_neg at hc
      have h5 : (5001 : ℤ) ≤ pyround (1000 * (5 - r)) := hc
      have h5q : (5001 : ℚ) ≤ (pyround (1000 * (5 - r)) : ℚ) := by exact_mod_cast h5
      linarith
    have hq : (pyround (1000 * (5 - r)) : ℚ) ≤ 5000 := by exact_mod_cast hz1
    linarith
  · have hz2 : (4000 : ℤ) ≤ pyround (1000 * (5 - r)) := by
      by_contra hc
      push_neg at hc
      have h4 : pyround (1000 * (5 - r)) ≤ 3999 := by omega
      have h4q : (pyround (1000 * (5 - r)) : ℚ) ≤ 3999 := by exact_mod_cast h4
      linarith
    have hq : (4000 : ℚ) ≤ (pyround (1000 * (5 - r)) : ℚ) := by exact_mod_cast hz2
    linarith

/-- Effect of one `set_Coins` call on an existing user: the first matching
row had value `r.Coins`; afterwards every matching row (in particular the
one `find?` sees) holds `round3 (r.Coins + δ)` and `last_login = now`. -/
theorem set_Coins_eq (u : ℤ) (δ : ℚ) (now : ℤ) (db : DB) (r : UserRow)
    (hr : db.users.find? (fun x => x.userid == u) = some r) :
    ∃ db1, set_Coins u δ now db = some db1
      ∧ db1.users.find? (fun x => x.userid == u) =
          some ⟨r.userid, round3 (r.Coins + δ), now⟩
      ∧ db1.groups = db.groups ∧ db1.pays = db.pays := by
  unfold set_Coins
  rw [hr]
  refine ⟨_, rfl, ?_, rfl, rfl⟩
  have hp : ∀ x : UserRow,
      (((if x.userid == u then
          { x with Coins := round3 (r.Coins + δ), last_login := now }
        else x) : UserRow).userid == u) = (x.userid == u) := by
    intro x
    by_cases hx : (x.userid == u) = true <;> simp [hx]
  rw [find?_map_pred _ _ hp, hr]
  have h1 := List.find?_some hr
  have h2 : r.userid = u := by simpa using h1
  simp [h2]

/-- C4: `set_Coins` reads the current balance, adds the delta, rounds to
3 decimals, writes back and refreshes `last_login`; adding `+5.3333` and
then `-5.3333` returns an existing user's balance to its original value
(balances stored by this module are always integer multiples of `1/1000`,
which the hypothesis `hm` records). -/
theorem adjust_balance_roundtrip (db : DB) (u : ℤ) (r : UserRow) (m : ℤ)
    (δ : ℚ) (now now1 now2 : ℤ)
    (hr : db.users.find? (fun x => x.userid == u) = some r)
    (hm : r.Coins = (m : ℚ)/1000) :
    (set_Coins u δ now db).map (fun d1 => d1.users.find? fun x => x.userid == u)
      = some (some ⟨r.userid, round3 (r.Coins + δ), now⟩)
    ∧ ((set_Coins u (53333/10000) now1 db).bind
        (fun d1 => set_Coins u (-(53333/10000)) now2 d1)).bind
          (fun d2 => get_Coins u d2)
      = some r.Coins := by
  constructor
  · obtain ⟨db1, h1, hf1, -, -⟩ := set_Coins_eq u δ now db r hr
    rw [h1]
    simpa using hf1
  · obtain ⟨dbA, hA, hfA, -, -⟩ := set_Coins_eq u (53333/10000) now1 db r hr
    obtain ⟨dbB, hB, hfB, -, -⟩ :=
      set_Coins_eq u (-(53333/10000)) now2 dbA _ hfA
    have hcoinsA : round3 (r.Coins + 53333/10000) = ((m + 5333 : ℤ) : ℚ)/1000 := by
      rw [hm, round3_add_53333]
    have hcoinsB :
        round3 (round3 (r.Coins + 53333/10000) + -(53333/10000)) = r.Coins := by
      rw [hcoinsA, hm]
      have e : ((m + 5333 : ℤ) : ℚ)/1000 + -(53333/10000) =
          ((m + 5333 : ℤ) : ℚ)/1000 - 53333/10000 := by ring
      rw [e, round3_sub_53333]
    have hbindA : ((set_Coins u (53333/10000) now1 db).bind
        fun d1 => set_Coins u (-(53333/10000)) now2 d1) = some dbB := by
      rw [hA]
      exact hB
    rw [hbindA]
    show get_Coins u dbB = some r.Coins
    unfold get_Coins
    rw [hfB]
    simp [hcoinsB]

/-- The sweep acts independently on each row: row `i` of the result is
`punishStep` applied to row `i` of the input, with the `i`-th random draw. -/
theorem punish_getElem (now : ℤ) (rand : ℕ → ℚ) (db : DB) (i : ℕ) (u : UserRow)
    (hu : db.users[i]? = some u) :
    (punish_all_inactive_users now rand db).users[i]? =
      some (punishStep now rand i u) := by
  unfold punish_all_inactive_users
  rw [punishUsers_getElem? now rand db.users 0 i, hu]
  simp

/-- C1 (amended): the sweep rewrites a row's coins to
`round3 (Coins - rand i)` exactly when `now - last_login > 86400` and
`Coins > 1`, and leaves the row unchanged otherwise (in particular for
`last_login = now` or `Coins = 0.5`); for an inactive user with
`Coins = 5.0` the decrease `5.0 - coins` lies in `[0, 1]` — the upper end
`1` is attained (see the counterexample), so the bound is `≤ 1`, not
`< 1`. -/
theorem punish_effect (now : ℤ) (rand : ℕ → ℚ) (db : DB) (i : ℕ) (u : UserRow)
    (hrand : ∀ j, 0 ≤ rand j ∧ rand j < 1)
    (hu : db.users[i]? = some u) :
    (punish_all_inactive_users now rand db).users[i]? =
      some (punishStep now rand i u)
    ∧ (now - u.last_login > 86400 ∧ u.Coins > 1 →
        punishStep now rand i u = ⟨u.userid, round3 (u.Coins - rand i), u.last_login⟩)
    ∧ (u.Coins = 5 ∧ now - u.last_login > 86400 →
        0 ≤ u.Coins - (punishStep now rand i u).Coins
        ∧ u.Coins - (punishStep now rand i u).Coins ≤ 1)
    ∧ (¬(now - u.last_login > 86400 ∧ u.Coins > 1) →
        punishStep now rand i u = u) := by
  refine ⟨punish_getElem now rand db i u hu, ?_, ?_, ?_⟩
  · intro hc
    unfold punishStep
    rw [if_pos hc]
  · rintro ⟨h5, hact⟩
    have hc : now - u.last_login > 86400 ∧ u.Coins > 1 := ⟨hact, by rw [h5]; norm_num⟩
    unfold punishStep
    rw [if_pos hc]
    simp only [h5]
    exact round3_five_sub_bounds (rand i) (hrand i).1 (hrand i).2
  · intro hc
    unfold punishStep
    rw [if_neg hc]

/-- C1 counterexample: with the random draw `0.9996 ∈ [0, 1)`, a user with
`last_login` two days ago (`now = 172800`, `last_login = 0`) and
`Coins = 5.0` ends the sweep with `Coins = 4.0`: the decrease
`5.0 - coins = 1.0` is not `< 1`, refuting the claim's strict bound. -/
theorem punish_decrease_reaches_one :
    ((0 : ℚ) ≤ 9996/10000 ∧ (9996 : ℚ)/10000 < 1)
    ∧ (punish_all_inactive_users 172800 (fun _ => 9996/10000)
        ⟨[⟨1, 5, 0⟩], [], [], 0⟩).users = [⟨1, 4, 0⟩]
    ∧ ¬((5 : ℚ) - 4 < 1) := by
  refine ⟨by norm_num, ?_, by norm_num⟩
  norm_num [punish_all_inactive_users, punishUsers, punishStep, round3, pyround]

/-- C9: the sweep never changes `userid` or `last_login` of any row, never
touches the groups or pays tables, keeps the user count, and leaves the
coins of every row failing the punishment criterion unchanged; since a
punished user's `last_login` is not reset, the row still satisfies the
inactivity test on a later sweep. -/
theorem punish_frame (now : ℤ) (rand : ℕ → ℚ) (db : DB) (i : ℕ) (u : UserRow)
    (hu : db.users[i]? = some u) :
    (punish_all_inactive_users now rand db).users.length = db.users.length
    ∧ (punish_all_inactive_users now rand db).groups = db.groups
    ∧ (punish_all_inactive_users now rand db).pays = db.pays
    ∧ (punish_all_inactive_users now rand db).users[i]? =
        some (punishStep now rand i u)
    ∧ (punishStep now rand i u).userid = u.userid
    ∧ (punishStep now rand i u).last_login = u.last_login
    ∧ (¬(now - u.last_login > 86400 ∧ u.Coins > 1) →
        punishStep now rand i u = u) := by
  refine ⟨punishUsers_length now rand db.users 0, rfl, rfl,
    punish_getElem now rand db i u hu, ?_, ?_, ?_⟩ <;> unfold punishStep
  · split <;> rfl
  · split <;> rfl
  · intro hc
    rw [if_neg hc]

/-- C10: the sweep never drives a balance negative: a user with `Coins > 1`
ends with `Coins ≥ 0` (whether punished or not, given draws in `[0, 1)`),
and a user with `Coins ≤ 1` keeps exactly the same balance. -/
theorem punish_never_negative (now : ℤ) (rand : ℕ → ℚ) (db : DB) (i : ℕ)
    (u : UserRow)
    (hrand : ∀ j, 0 ≤ rand j ∧ rand j < 1)
    (hu : db.users[i]? = some u) :
    (punish_all_inactive_users now rand db).users[i]? =
      some (punishStep now rand i u)
    ∧ (1 < u.Coins → 0 ≤ (punishStep now rand i u).Coins)
    ∧ (u.Coins ≤ 1 → (punishStep now rand i u).Coins = u.Coins) := by
  refine ⟨punish_getElem now rand db i u hu, ?_, ?_⟩ <;> unfold punishStep
  · intro h1
    split
    · exact round3_nonneg _ (by linarith [(hrand i).2])
    · simpa using le_of_lt (lt_trans one_pos h1)
  · intro h1
    rw [if_neg ?_]
    rintro ⟨-, hgt⟩
    exact absurd h1 (not_le.mpr hgt)

/-- When no (`userid`, `today`) row exists, `insert_pay` appends a fresh row
(cases (a) and (c) of the source both do exactly this). -/
theorem insert_pay_append (u : ℤ) (v : ℚ) (d : String) (db : DB)
    (h : db.pays.find? (fun p => p.userid == u && p.date == d) = none) :
    (insert_pay u v d db).pays = db.pays ++ [⟨db.nextPayId, u, d, truncQ v⟩] := by
  simp only [insert_pay]
  by_cases ha : (db.pays.find? fun p => p.userid == u).isNone = true
  · rw [if_pos ha]
  · rw [if_neg ha, h]

/-- When a (`userid`, `today`) row exists, `insert_pay` adds the truncated
volume onto every such row (case (b) of the source). -/
theorem insert_pay_accum (u : ℤ) (v : ℚ) (d : String) (db : DB) (cur : PayRow)
    (hb : db.pays.find? (fun p => p.userid == u && p.date == d) = some cur) :
    (insert_pay u v d db).pays = db.pays.map fun p =>
      if p.userid == u && p.date == d then
        { p with volume := cur.volume + truncQ v }
      else p := by
  have hcur : (cur.userid == u) = true := by
    have h2 := List.find?_some hb
    simp only [Bool.and_eq_true] at h2
    exact h2.1
  have ha : (db.pays.find? fun p => p.userid == u).isSome = true := by
    rw [List.find?_isSome]
    exact ⟨cur, List.mem_of_find?_eq_some hb, hcur⟩
  simp only [insert_pay]
  rw [if_neg ?hna, hb]
  case hna =>
    intro hN
    rw [Option.isNone_iff_eq_none] at hN
    rw [hN] at ha
    exact absurd ha (by simp)

/-- C2: `insert_pay` truncates the volume to an integer and inserts a new
row for today when the user has no row for today (whether or not they have
rows for other days); paying 100 then 50 on the same day makes
`get_today_pay_data` return 150; and a payment on a different day `d2`
never changes what `get_today_pay_data` reports for day `d`. -/
theorem record_payment_accumulates (db db2 : DB) (u : ℤ) (d d2 : String)
    (v w : ℚ)
    (h : ∀ p ∈ db.pays, ¬(p.userid = u ∧ p.date = d))
    (hne : d2 ≠ d) :
    (insert_pay u v d db).pays = db.pays ++ [⟨db.nextPayId, u, d, truncQ v⟩]
    ∧ get_today_pay_data u d (insert_pay u 50 d (insert_pay u 100 d db)) = 150
    ∧ get_today_pay_data u d (insert_pay u w d2 db2) =
        get_today_pay_data u d db2 := by
  have hud : db.pays.find? (fun p => p.userid == u && p.date == d) = none :=
    List.find?_eq_none.mpr fun p hp => by simpa using h p hp
  refine ⟨insert_pay_append u v d db hud, ?_, ?_⟩
  · have h1 : (insert_pay u 100 d db).pays =
        db.pays ++ [⟨db.nextPayId, u, d, truncQ 100⟩] :=
      insert_pay_append u 100 d db hud
    have hf1 : (insert_pay u 100 d db).pays.find?
        (fun p => p.userid == u && p.date == d) =
          some ⟨db.nextPayId, u, d, truncQ 100⟩ := by
      rw [h1]
      exact find?_append_right _ _ _ (List.find?_eq_none.mp hud) (by simp)
    have h2 := insert_pay_accum u 50 d (insert_pay u 100 d db) _ hf1
    unfold get_today_pay_data
    rw [h2]
    have hp : ∀ p : PayRow,
        (((if p.userid == u && p.date == d then
            { p with volume := (⟨db.nextPayId, u, d, truncQ 100⟩ : PayRow).volume + truncQ 50 }
          else p) : PayRow).userid == u
          && ((if p.userid == u && p.date == d then
            { p with volume := (⟨db.nextPayId, u, d, truncQ 100⟩ : PayRow).volume + truncQ 50 }
          else p) : PayRow).date == d) = (p.userid == u && p.date == d) := by
      intro p
      by_cases hx : (p.userid == u && p.date == d) = true <;> simp [hx]
    rw [find?_map_pred _ _ hp, hf1]
    norm_num [truncQ]
  · cases hb : db2.pays.find? (fun p => p.userid == u && p.date == d2) with
    | none =>
      unfold get_today_pay_data
      rw [insert_pay_append u w d2 db2 hb]
      rw [find?_append_none _ _ _ (by simp [hne])]
    | some cur =>
      unfold get_today_pay_data
      rw [insert_pay_accum u w d2 db2 cur hb]
      rw [find?_map_id_of_pred _ _ ?hp ?hid]
      case hp =>
        intro p
        by_cases hx : (p.userid == u && p.date == d2) = true <;> simp [hx]
      case hid =>
        intro p hpd
        have hd : p.date = d := by
          have h2 := hpd
          simp only [Bool.and_eq_true, beq_iff_eq] at h2
          exact h2.2
        have hcond : ¬((p.userid == u && p.date == d2) = true) := by
          simp only [Bool.and_eq_true, beq_iff_eq, not_and]
          intro _ hdd
          rw [hd] at hdd
          exact hne hdd.symm
        rw [if_neg hcond]

/-- One `insert_pay` call preserves the at-most-one-row-per-(userid, date)
invariant. -/
theorem insert_pay_preserves_payKeyUnique (u : ℤ) (v : ℚ) (d : String)
    (db : DB) (h : payKeyUnique db.pays) :
    payKeyUnique (insert_pay u v d db).pays := by
  cases hb : db.pays.find? (fun p => p.userid == u && p.date == d) with
  | some cur =>
    rw [payKeyUnique, insert_pay_accum u v d db cur hb, List.pairwise_map]
    refine h.imp ?_
    intro p q hpq
    by_cases hp : (p.userid == u && p.date == d) = true <;>
      by_cases hq : (q.userid == u && q.date == d) = true <;>
      simpa [hp, hq] using hpq
  | none =>
    rw [payKeyUnique, insert_pay_append u v d db hb, List.pairwise_append]
    refine ⟨h, List.pairwise_singleton _ _, ?_⟩
    intro p hp x hx
    simp only [List.mem_singleton] at hx
    subst hx
    have h2 := List.find?_eq_none.mp hb p hp
    simpa using h2

/-- C7: the pays table holds at most one row per (`userid`, `date`):
a single `insert_pay` preserves the invariant, a same-day repeat adds no
row (it folds the volume into the existing one), and any sequence of
`insert_pay` calls keeps the invariant. -/
theorem payment_key_invariant (db : DB) (u : ℤ) (v : ℚ) (d : String)
    (ops : List (ℤ × ℚ × String))
    (h : payKeyUnique db.pays) :
    payKeyUnique (insert_pay u v d db).pays
    ∧ ((db.pays.find? (fun p => p.userid == u && p.date == d)).isSome = true →
        (insert_pay u v d db).pays.length = db.pays.length)
    ∧ payKeyUnique
        ((ops.foldl (fun s op => insert_pay op.1 op.2.1 op.2.2 s) db).pays) := by
  refine ⟨insert_pay_preserves_payKeyUnique u v d db h, ?_, ?_⟩
  · intro hs
    obtain ⟨cur, hcur⟩ := Option.isSome_iff_exists.mp hs
    rw [insert_pay_accum u v d db cur hcur, List.length_map]
  · have hgen : ∀ (l : List (ℤ × ℚ × String)) (s : DB), payKeyUnique s.pays →
        payKeyUnique
          ((l.foldl (fun s op => insert_pay op.1 op.2.1 op.2.2 s) s).pays) := by
      intro l
      induction l with
      | nil => intro s hs; exact hs
      | cons op rest ih =>
        intro s hs
        exact ih _ (insert_pay_preserves_payKeyUnique _ _ _ _ hs)
    exact hgen ops db h

/-! ### Witnesses -/

theorem punish_effect_witness :
    (punish_all_inactive_users 172800 (fun _ => 1/2)
        ⟨[⟨1, 5, 0⟩], [], [], 0⟩).users[0]? =
      some (punishStep 172800 (fun _ => 1/2) 0 ⟨1, 5, 0⟩)
    ∧ ((172800 : ℤ) - 0 > 86400 ∧ (5 : ℚ) > 1 →
        punishStep 172800 (fun _ => 1/2) 0 ⟨1, 5, 0⟩ = ⟨1, round3 (5 - 1/2), 0⟩)
    ∧ ((5 : ℚ) = 5 ∧ (172800 : ℤ) - 0 > 86400 →
        0 ≤ (5 : ℚ) - (punishStep 172800 (fun _ => 1/2) 0 ⟨1, 5, 0⟩).Coins
        ∧ (5 : ℚ) - (punishStep 172800 (fun _ => 1/2) 0 ⟨1, 5, 0⟩).Coins ≤ 1)
    ∧ (¬((172800 : ℤ) - 0 > 86400 ∧ (5 : ℚ) > 1) →
        punishStep 172800 (fun _ => 1/2) 0 ⟨1, 5, 0⟩ = ⟨1, 5, 0⟩) :=
  punish_effect 172800 (fun _ => 1/2) ⟨[⟨1, 5, 0⟩], [], [], 0⟩ 0 ⟨1, 5, 0⟩
    (fun _ => by norm_num) rfl

theorem record_payment_accumulates_witness :
    (insert_pay 1 3 "2023-02-04" ⟨[], [], [], 0⟩).pays =
      [] ++ [⟨0, 1, "2023-02-04", truncQ 3⟩]
    ∧ get_today_pay_data 1 "2023-02-04"
        (insert_pay 1 50 "2023-02-04"
          (insert_pay 1 100 "2023-02-04" ⟨[], [], [], 0⟩)) = 150
    ∧ get_today_pay_data 1 "2023-02-04"
        (insert_pay 1 9 "2023-02-05" ⟨[], [], [⟨0, 1, "2023-02-04", 7⟩], 1⟩) =
      get_today_pay_data 1 "2023-02-04" ⟨[], [], [⟨0, 1, "2023-02-04", 7⟩], 1⟩ :=
  record_payment_accumulates ⟨[], [], [], 0⟩ ⟨[], [], [⟨0, 1, "2023-02-04", 7⟩], 1⟩
    1 "2023-02-04" "2023-02-05" 3 9 (by simp) (by decide)

theorem new_user_lifecycle_witness :
    is_in_table 1 ⟨[⟨7, 2, 0⟩], [], [], 0⟩ = false
    ∧ is_in_table 1 (add_new_user 1 100 ⟨[⟨7, 2, 0⟩], [], [], 0⟩) = true
    ∧ (add_new_user 1 100 ⟨[⟨7, 2, 0⟩], [], [], 0⟩).users.find?
        (fun r => r.userid == 1) = some ⟨1, 10, 100⟩
    ∧ get_Coins 1 (add_new_user 1 100 ⟨[⟨7, 2, 0⟩], [], [], 0⟩) = some 10
    ∧ is_in_table 1 (update_activity 1 101 102 ⟨[⟨7, 2, 0⟩], [], [], 0⟩) = true
    ∧ (update_activity 1 101 102 ⟨[⟨7, 2, 0⟩], [], [], 0⟩).users.find?
        (fun r => r.userid == 1) = some ⟨1, 10, 102⟩
    ∧ get_Coins 1 (update_activity 1 101 102 ⟨[⟨7, 2, 0⟩], [], [], 0⟩) = some 10 :=
  new_user_lifecycle ⟨[⟨7, 2, 0⟩], [], [], 0⟩ 1 100 101 102 (by decide)

theorem adjust_balance_roundtrip_witness :
    (set_Coins 1 2 3 ⟨[⟨1, 10, 0⟩], [], [], 0⟩).map
        (fun d1 => d1.users.find? fun x => x.userid == 1)
      = some (some ⟨1, round3 (10 + 2), 3⟩)
    ∧ ((set_Coins 1 (53333/10000) 4 ⟨[⟨1, 10, 0⟩], [], [], 0⟩).bind
        (fun d1 => set_Coins 1 (-(53333/10000)) 5 d1)).bind
          (fun d2 => get_Coins 1 d2)
      = some 10 :=
  adjust_balance_roundtrip ⟨[⟨1, 10, 0⟩], [], [], 0⟩ 1 ⟨1, 10, 0⟩ 10000 2 3 4 5
    rfl (by norm_num)

theorem group_allow_roundtrip_witness :
    check_group_allow 4 (set_group_allow 4 true ⟨[], [⟨4, false⟩, ⟨9, true⟩], [], 0⟩) = true
    ∧ check_group_allow 4 (set_group_allow 4 true ⟨[], [⟨9, true⟩], [], 0⟩) = true
    ∧ check_group_allow 4 ⟨[], [⟨9, true⟩], [], 0⟩ = false :=
  ⟨(group_allow_roundtrip ⟨[], [⟨4, false⟩, ⟨9, true⟩], [], 0⟩ 4 true).1,
   (group_allow_roundtrip ⟨[], [⟨9, true⟩], [], 0⟩ 4 true).1,
   (group_allow_roundtrip ⟨[], [⟨9, true⟩], [], 0⟩ 4 true).2 (by decide)⟩

theorem get_Coins_crashes_witness :
    get_Coins 2 ⟨[⟨1, 10, 0⟩], [], [⟨0, 1, "2023-02-04", 5⟩], 1⟩ = none
    ∧ get_today_pay_data 2 "2023-02-05"
        ⟨[⟨1, 10, 0⟩], [], [⟨0, 1, "2023-02-04", 5⟩], 1⟩ = 0 :=
  get_Coins_crashes_but_today_pay_defaults
    ⟨[⟨1, 10, 0⟩], [], [⟨0, 1, "2023-02-04", 5⟩], 1⟩ 2 "2023-02-05"
    (by decide) (by decide)

theorem payment_key_invariant_witness :
    payKeyUnique
        (insert_pay 1 4 "2023-02-04" ⟨[], [], [⟨0, 1, "2023-02-04", 5⟩], 1⟩).pays
    ∧ (((⟨[], [], [⟨0, 1, "2023-02-04", 5⟩], 1⟩ : DB).pays.find?
          (fun p => p.userid == 1 && p.date == "2023-02-04")).isSome = true →
        (insert_pay 1 4 "2023-02-04"
            ⟨[], [], [⟨0, 1, "2023-02-04", 5⟩], 1⟩).pays.length =
          (⟨[], [], [⟨0, 1, "2023-02-04", 5⟩], 1⟩ : DB).pays.length)
    ∧ payKeyUnique
        (([((1 : ℤ), (7 : ℚ), "2023-02-04"), ((2 : ℤ), (3 : ℚ), "2023-02-05")].foldl
            (fun s op => insert_pay op.1 op.2.1 op.2.2 s)
            ⟨[], [], [⟨0, 1, "2023-02-04", 5⟩], 1⟩).pays) :=
  payment_key_invariant ⟨[], [], [⟨0, 1, "2023-02-04", 5⟩], 1⟩ 1 4 "2023-02-04"
    [((1 : ℤ), (7 : ℚ), "2023-02-04"), ((2 : ℤ), (3 : ℚ), "2023-02-05")]
    (by unfold payKeyUnique; decide)

theorem punish_frame_witness :
    (punish_all_inactive_users 60 (fun _ => 1/4)
        ⟨[⟨2, 3, 50⟩], [], [], 0⟩).users.length =
      (⟨[⟨2, 3, 50⟩], [], [], 0⟩ : DB).users.length
    ∧ (punish_all_inactive_users 60 (fun _ => 1/4)
        ⟨[⟨2, 3, 50⟩], [], [], 0⟩).groups = []
    ∧ (punish_all_inactive_users 60 (fun _ => 1/4)
        ⟨[⟨2, 3, 50⟩], [], [], 0⟩).pays = []
    ∧ (punish_all_inactive_users 60 (fun _ => 1/4)
        ⟨[⟨2, 3, 50⟩], [], [], 0⟩).users[0]? =
      some (punishStep 60 (fun _ => 1/4) 0 ⟨2, 3, 50⟩)
    ∧ (punishStep 60 (fun _ => 1/4) 0 ⟨2, 3, 50⟩).userid = 2
    ∧ (punishStep 60 (fun _ => 1/4) 0 ⟨2, 3, 50⟩).last_login = 50
    ∧ (¬((60 : ℤ) - 50 > 86400 ∧ (3 : ℚ) > 1) →
        punishStep 60 (fun _ => 1/4) 0 ⟨2, 3, 50⟩ = ⟨2, 3, 50⟩) :=
  punish_frame 60 (fun _ => 1/4) ⟨[⟨2, 3, 50⟩], [], [], 0⟩ 0 ⟨2, 3, 50⟩ rfl

theorem punish_never_negative_witness :
    (punish_all_inactive_users 200000 (fun _ => 3/4)
        ⟨[⟨3, 2, 0⟩], [], [], 0⟩).users[0]? =
      some (punishStep 200000 (fun _ => 3/4) 0 ⟨3, 2, 0⟩)
    ∧ ((1 : ℚ) < 2 → 0 ≤ (punishStep 200000 (fun _ => 3/4) 0 ⟨3, 2, 0⟩).Coins)
    ∧ ((2 : ℚ) ≤ 1 →
        (punishStep 200000 (fun _ => 3/4) 0 ⟨3, 2, 0⟩).Coins = 2) :=
  punish_never_negative 200000 (fun _ => 3/4) ⟨[⟨3, 2, 0⟩], [], [], 0⟩ 0 ⟨3, 2, 0⟩
    (fun _ => by norm_num) rfl

/-- Invariant behind C4's `hm` hypothesis: every balance the store holds
is an integer multiple of `1/1000`. -/
def coins3 (db : DB) : Prop := ∀ r ∈ db.users, ∃ m : ℤ, r.Coins = (m : ℚ)/1000

/-- Every write path of the store preserves the `coins3` invariant:
creation writes `10.0 = 10000/1000`, activity updates leave balances
alone, and `set_Coins` and the punishment sweep both round to 3 decimals
on write. -/
theorem coins3_preserved (db : DB) (h : coins3 db) (u t now1 now2 : ℤ)
    (δ : ℚ) (rand : ℕ → ℚ) :
    coins3 (add_new_user u t db)
    ∧ coins3 (update_activity u now1 now2 db)
    ∧ (∀ db1, set_Coins u δ t db = some db1 → coins3 db1)
    ∧ coins3 (punish_all_inactive_users t rand db) := by
  have hadd : ∀ t2 : ℤ, coins3 (add_new_user u t2 db) := by
    intro t2 r hr
    rw [add_new_user] at hr
    rcases List.mem_append.mp hr with hr | hr
    · exact h r hr
    · simp only [List.mem_singleton] at hr
      subst hr
      exact ⟨10000, by norm_num⟩
  refine ⟨hadd t, ?_, ?_, ?_⟩
  · intro r' hr'
    simp only [update_activity] at hr'
    obtain ⟨r, hr, rfl⟩ := List.mem_map.mp hr'
    have hc : ∀ q : UserRow,
        ((if q.userid == u then { q with last_login := now2 } else q) : UserRow).Coins
          = q.Coins := by
      intro q
      by_cases hq : (q.userid == u) = true <;> simp [hq]
    rw [hc]
    by_cases hin : is_in_table u db = true
    · rw [if_pos hin] at hr
      exact h r hr
    · rw [if_neg hin] at hr
      exact hadd now1 r hr
  · intro db1 hdb1
    unfold set_Coins at hdb1
    cases hf : db.users.find? (fun x => x.userid == u) with
    | none =>
      rw [hf] at hdb1
      cases hdb1
    | some cur =>
      rw [hf] at hdb1
      simp only [Option.map_some'] at hdb1
      obtain rfl := Option.some_inj.mp hdb1
      intro r' hr'
      obtain ⟨r, hr, rfl⟩ := List.mem_map.mp hr'
      by_cases hq : (r.userid == u) = true
      · rw [if_pos hq]
        exact ⟨pyround (1000 * (cur.Coins + δ)), rfl⟩
      · rw [if_neg hq]
        exact h r hr
  · intro r' hr'
    rw [punish_all_inactive_users] at hr'
    obtain ⟨i, hi⟩ := List.mem_iff_getElem.mp hr'
    obtain ⟨hlen, hval⟩ := hi
    have hi? : (punishUsers t rand 0 db.users)[i]? = some r' := by
      rw [List.getElem?_eq_some]
      exact ⟨hlen, hval⟩
    rw [punishUsers_getElem?] at hi?
    cases hu2 : db.users[i]? with
    | none =>
      rw [hu2] at hi?
      cases hi?
    | some r =>
      rw [hu2] at hi?
      simp only [Option.map_some', Option.some_inj] at hi?
      have hrmem : r ∈ db.users := by
        rw [List.getElem?_eq_some] at hu2
        obtain ⟨h1, h2⟩ := hu2
        exact List.mem_iff_getElem.mpr ⟨i, h1, h2⟩
      rw [← hi?]
      unfold punishStep
      split
      · exact ⟨pyround (1000 * (r.Coins - rand (0 + i))), rfl⟩
      · exact h r hrmem
